import Mathlib

/-!
# Verification of the consul topology watcher

Shallow embedding of `src/consul/watcher.go` of the haproxy-consul-connect
repository: the long-poll watchers (CA roots, leaf certificate,
self-registration, self-port, per-upstream), the change notifier, the
upstream reconciliation, and the configuration synthesizer `genCfg`.

Conventions of the embedding:
* Go `uint64` blocking-query indices become `Nat`; content hashes stay `String`.
* Go `int` ports and weights become `Int`; durations are modelled in seconds
  as `Int` (the unit is irrelevant to every claim).
* `map[string]T` becomes an association list `List (String × T)` with
  Go-map assignment semantics (`assocSet`) and `List.lookup`.
* `map[string]interface{}` values keep only the dynamic shapes the source
  inspects (`.(string)` and `.(bool)` type assertions), via `ConfigVal`.
* The external consul library (`hashicorp/consul/api`) is modelled by passive
  records in namespace `api`; `api.HealthChecks.AggregatedStatus` — a method
  of the external library, not of this repository — is abstracted to the
  status string it returns, over which the theorems quantify.
* The concurrent system (goroutines of `Run`) is modelled as a deterministic
  step machine over an explicit event alphabet: one event per loop iteration
  of one watcher, plus one event for the synthesizer loop of `Run`.
-/

namespace Watcher

namespace api

/-- `api.HealthPassing`. -/
def HealthPassing : String := "passing"

/-- `api.HealthWarning`. -/
def HealthWarning : String := "warning"

/-- `api.UpstreamDestTypePreparedQuery`. -/
def UpstreamDestTypePreparedQuery : String := "prepared_query"

/-- One dynamic value of a Go `map[string]interface{}` configuration block,
keeping exactly the shapes the source inspects with type assertions. -/
inductive ConfigVal where
  | str (s : String)
  | bool (b : Bool)
  | other
deriving DecidableEq, Repr

/-- `api.AgentWeights`. -/
structure AgentWeights where
  Passing : Int
  Warning : Int
deriving DecidableEq, Repr

/-- `api.Node` (the fields `genCfg` reads). -/
structure Node where
  Node : String
  Address : String
deriving DecidableEq, Repr

/-- `api.HealthChecks`, abstracted to the verdict of its external
`AggregatedStatus()` method (a function of the consul library, not of this
repository): the worst-case status string across the instance's checks. -/
structure HealthChecks where
  AggregatedStatus : String
deriving DecidableEq, Repr

/-- `api.Upstream`: one upstream block of a proxy registration. -/
structure Upstream where
  DestinationType : String
  DestinationName : String
  Datacenter : String
  LocalBindAddress : String
  LocalBindPort : Int
  Config : List (String × ConfigVal)
deriving DecidableEq, Repr

/-- `api.AgentServiceConnectProxyConfig` (the fields the source reads).
`Config` is `Option`-valued because the source checks it against `nil`. -/
structure AgentServiceConnectProxyConfig where
  Config : Option (List (String × ConfigVal))
  Upstreams : List Upstream
deriving DecidableEq, Repr

/-- `api.AgentService` (the fields the source reads). -/
structure AgentService where
  Service : String
  Address : String
  Port : Int
  Weights : AgentWeights
  Proxy : Option AgentServiceConnectProxyConfig
deriving DecidableEq, Repr

/-- `api.ServiceEntry`: one health-annotated service instance. -/
structure ServiceEntry where
  Node : Node
  Service : AgentService
  Checks : HealthChecks
deriving DecidableEq, Repr

/-- `api.LeafCert` (the fields the source reads). -/
structure LeafCert where
  CertPEM : String
  PrivateKeyPEM : String
deriving DecidableEq, Repr

end api

/-- Go-map assignment `m[k] = v` on an association list. -/
def assocSet {α : Type} (m : List (String × α)) (k : String) (v : α) :
    List (String × α) :=
  (k, v) :: m.filter (fun p => p.1 != k)

/-- Typed lookup of a string value, mirroring `cfg[k].(string)`. -/
def cfgGetStr (cfg : List (String × api.ConfigVal)) (k : String) : Option String :=
  match cfg.lookup k with
  | some (api.ConfigVal.str s) => some s
  | _ => none

/-- Typed lookup of a bool value, mirroring `cfg[k].(bool)`. -/
def cfgGetBool (cfg : List (String × api.ConfigVal)) (k : String) : Option Bool :=
  match cfg.lookup k with
  | some (api.ConfigVal.bool b) => some b
  | _ => none

/-- `defaultDownstreamBindAddr`. -/
def defaultDownstreamBindAddr : String := "0.0.0.0"

/-- `defaultUpstreamBindAddr`. -/
def defaultUpstreamBindAddr : String := "127.0.0.1"

/-- `errorWaitTime = 5 * time.Second`, in seconds. -/
def errorWaitTime : Int := 5

/-- `preparedQueryPollInterval = 30 * time.Second`, in seconds. -/
def preparedQueryPollInterval : Int := 30

/-- The watcher-internal `upstream` record. -/
structure upstream where
  LocalBindAddress : String
  LocalBindPort : Int
  Name : String
  Datacenter : String
  Protocol : String
  Nodes : List api.ServiceEntry
  done : Bool
deriving DecidableEq, Repr

/-- The watcher-internal `downstream` record. -/
structure downstream where
  LocalBindAddress : String
  LocalBindPort : Int
  Protocol : String
  TargetAddress : String
  TargetPort : Int
  EnableForwardFor : Bool
  AppNameHeaderName : String
deriving DecidableEq, Repr

/-- The watcher-internal `certLeaf` record; PEM bytes kept as strings. -/
structure certLeaf where
  Cert : String
  Key : String
  done : Bool
deriving DecidableEq, Repr

/-- Modelled from the spec: the TLS material attached to each side of the
ConfigSnapshot (the `TLS` record of the repository's haproxy config package
is not under `src/`; §3 "ConfigSnapshot ... with attached TLS material").
The certificate pool is abstracted to the list of PEM roots it was built
from. -/
structure TLS where
  CAs : List String
  Cert : String
  Key : String
deriving DecidableEq, Repr

/-- Modelled from the spec: one live instance of a synthesized upstream
(§3 "UpstreamNode: one live instance of an upstream — node name, address,
port, integer weight"); the record itself is not under `src/`, its fields
are exactly those `genCfg` populates. -/
structure UpstreamNode where
  Name : String
  Address : String
  Port : Int
  Weight : Int
deriving DecidableEq, Repr

/-- Modelled from the spec: the synthesized downstream listener
(§3 "DownstreamSpec"); fields exactly as `genCfg` populates them. -/
structure Downstream where
  LocalBindAddress : String
  LocalBindPort : Int
  TargetAddress : String
  TargetPort : Int
  Protocol : String
  EnableForwardFor : Bool
  AppNameHeaderName : String
  TLS : TLS
deriving DecidableEq, Repr

/-- Modelled from the spec: one synthesized upstream (§3 "UpstreamSpec");
fields exactly as `genCfg` populates them. -/
structure Upstream where
  Name : String
  LocalBindAddress : String
  LocalBindPort : Int
  Protocol : String
  TLS : TLS
  Nodes : List UpstreamNode
deriving DecidableEq, Repr

/-- Modelled from the spec: the ConfigSnapshot emitted on the output channel
(§3 "ConfigSnapshot: the synthesized, immutable output"); the x509 pool is
abstracted to the PEM list it was built from. -/
structure Config where
  ServiceName : String
  ServiceID : String
  CAsPool : List String
  Downstream : Downstream
  Upstreams : List Upstream
deriving DecidableEq, Repr

/-- The per-instance body of the node loop of `genCfg`: returns the
synthesized node, or `none` where the source says `continue`.  Mirrors the
name/address/weight derivation of `watcher.go` lines 456-486. -/
def instNode (s : api.ServiceEntry) : Option UpstreamNode :=
  let name := s.Node.Node
  let address := if s.Service.Address = "" then s.Node.Address else s.Service.Address
  if s.Checks.AggregatedStatus = api.HealthPassing then
    if s.Service.Weights.Passing = 0 then none
    else some { Name := name, Address := address, Port := s.Service.Port,
                Weight := s.Service.Weights.Passing }
  else if s.Checks.AggregatedStatus = api.HealthWarning then
    if s.Service.Weights.Warning = 0 then none
    else some { Name := name, Address := address, Port := s.Service.Port,
                Weight := s.Service.Weights.Warning }
  else none

/-- Lexicographic codepoint comparison of character lists (non-strict).
Go compares strings byte-wise; UTF-8 byte order and codepoint order
coincide. -/
def charListLeb : List Char → List Char → Bool
  | [], _ => true
  | _ :: _, [] => false
  | a :: as, b :: bs =>
    if a.toNat < b.toNat then true
    else if b.toNat < a.toNat then false
    else charListLeb as bs

/-- Non-strict string comparison, Go's byte-wise order. -/
def strLeb (a b : String) : Bool := charListLeb a.data b.data

/-- The comparison of `sort.Slice` in `genCfg`: ascending node name. -/
def nodeNameLe (a b : UpstreamNode) : Prop := strLeb a.Name b.Name = true

instance : DecidableRel nodeNameLe :=
  fun a b => inferInstanceAs (Decidable (strLeb a.Name b.Name = true))

/-- The node list one upstream contributes to the snapshot: the instance
loop of `genCfg` followed by the `sort.Slice` by node name. -/
def genUpstreamNodes (nodes : List api.ServiceEntry) : List UpstreamNode :=
  List.insertionSort nodeNameLe (nodes.filterMap instNode)

/-- The per-upstream body of `genCfg`. -/
def genUpstream (certCAs : List String) (lf : certLeaf) (up : upstream) : Upstream :=
  { Name := up.Name
    LocalBindAddress := up.LocalBindAddress
    LocalBindPort := up.LocalBindPort
    Protocol := up.Protocol
    TLS := { CAs := certCAs, Cert := lf.Cert, Key := lf.Key }
    Nodes := genUpstreamNodes up.Nodes }

/-- `genCfg`: the configuration synthesizer, as a pure function of the
locked shared state.  `lf` is the dereferenced `w.leaf`; the step machine
below models the `nil` dereference explicitly. -/
def genCfg (serviceName service : String) (certCAs : List String) (lf : certLeaf)
    (d : downstream) (ups : List (String × upstream)) : Config :=
  { ServiceName := serviceName
    ServiceID := service
    CAsPool := certCAs
    Downstream :=
      { LocalBindAddress := d.LocalBindAddress
        LocalBindPort := d.LocalBindPort
        TargetAddress := d.TargetAddress
        TargetPort := d.TargetPort
        Protocol := d.Protocol
        EnableForwardFor := d.EnableForwardFor
        AppNameHeaderName := d.AppNameHeaderName
        TLS := { CAs := certCAs, Cert := lf.Cert, Key := lf.Key } }
    Upstreams := ups.map (fun p => genUpstream certCAs lf p.2) }

/-- Capacity of the update channel: `update: make(chan struct{}, 1)`. -/
def updateChanCap : Nat := 1

/-- `notifyChanged`: non-blocking send on the single-slot update channel
(`select` with a `default` arm).  `pending` is the number of buffered
signals; the send succeeds only while the buffer is below capacity. -/
def notifyChanged (pending : Nat) : Nat :=
  if pending < updateChanCap then pending + 1 else pending

/-- One iteration of the query part of `watchLeaf` (lines 303-328): given the
tracked `lastIndex` and the poll outcome (`none` = transport error,
`some (cert, meta.LastIndex)` = success), returns the new tracked index and
the `changed` verdict.  On error the index is reset to zero and no handler
runs. -/
def watchLeafStep (lastIndex : Nat) (res : Option (api.LeafCert × Nat)) :
    Nat × Bool :=
  match res with
  | none => (0, false)
  | some (_, idx) => (idx, lastIndex != idx)

/-- One iteration of the query part of `watchCA` (lines 373-402): same
index discipline as the leaf watcher, over the CA root list. -/
def watchCAStep (lastIndex : Nat) (res : Option (List String × Nat)) :
    Nat × Bool :=
  match res with
  | none => (0, false)
  | some (_, idx) => (idx, lastIndex != idx)

/-- One iteration of the query part of `watchService` (lines 343-362): the
tracked state is a content hash; on error it is reset to the empty hash. -/
def watchServiceStep (hash : String) (res : Option (api.AgentService × String)) :
    String × Bool :=
  match res with
  | none => ("", false)
  | some (_, h) => (h, hash != h)

/-- One iteration of the query part of the direct-service upstream loop of
`startUpstreamService` (lines 190-217): index-based, reset to zero on
error. -/
def upstreamServiceStep (index : Nat) (res : Option (List api.ServiceEntry × Nat)) :
    Nat × Bool :=
  match res with
  | none => (0, false)
  | some (_, idx) => (idx, index != idx)

/-- One iteration of the prepared-query poll loop of
`startUpstreamPreparedQuery` (lines 254-286).  `last` is the goroutine-local
previous result (`none` = the initial Go nil slice, which
`reflect.DeepEqual` distinguishes from any returned non-nil slice);
`res` is the poll outcome.  Returns the updated upstream record, the new
`last`, and the number of `notifyChanged` calls made. -/
def pqStep (u : upstream) (last : Option (List api.ServiceEntry))
    (res : Option (List api.ServiceEntry)) :
    upstream × Option (List api.ServiceEntry) × Nat :=
  if u.done then (u, last, 0)
  else
    match res with
    | none => (u, last, 0)
    | some nodes =>
      if last = some nodes then (u, last, 0)
      else ({ u with Nodes := nodes }, some nodes, 1)

/-- The stable key of an upstream: `fmt.Sprintf("%s_%s", DestinationType,
DestinationName)`. -/
def upstreamKey (up : api.Upstream) : String :=
  up.DestinationType ++ "_" ++ up.DestinationName

/-- The registration part of `startUpstreamService` (lines 172-188): builds
the `upstream` record and stores it in the map.  The spawned poll goroutine
(local index starting at zero) is modelled by the step machine below. -/
def startUpstreamService (up : api.Upstream) (name : String)
    (m : List (String × upstream)) : List (String × upstream) :=
  let u : upstream :=
    { LocalBindAddress := up.LocalBindAddress
      LocalBindPort := up.LocalBindPort
      Name := name
      Datacenter := up.Datacenter
      Protocol := (cfgGetStr up.Config "protocol").getD ""
      Nodes := []
      done := false }
  assocSet m name u

/-- The registration part of `startUpstreamPreparedQuery` (lines 220-252):
`pd` models the external `time.ParseDuration`.  If the config block carries a
`poll_interval` string that fails to parse, the function returns before
registering the upstream and before starting the poll loop; the second
component is the interval of the started loop, `none` when no loop was
started. -/
def startUpstreamPreparedQuery (pd : String → Option Int) (up : api.Upstream)
    (name : String) (m : List (String × upstream)) :
    List (String × upstream) × Option Int :=
  let u : upstream :=
    { LocalBindAddress := up.LocalBindAddress
      LocalBindPort := up.LocalBindPort
      Name := name
      Datacenter := up.Datacenter
      Protocol := (cfgGetStr up.Config "protocol").getD ""
      Nodes := []
      done := false }
  match cfgGetStr up.Config "poll_interval" with
  | some p =>
    match pd p with
    | none => (m, none)
    | some dur => (assocSet m name u, some dur)
  | none => (assocSet m name u, some preparedQueryPollInterval)

/-- `removeUpstream` (lines 289-296): marks the tracked upstream done and
deletes its map entry; returns the map without the entry and the stopped
record (with its done flag set) when the key was tracked. -/
def removeUpstream (m : List (String × upstream)) (name : String) :
    List (String × upstream) × Option upstream :=
  match m.lookup name with
  | some u => (m.filter (fun p => p.1 != name), some { u with done := true })
  | none => (m, none)

/-- The downstream-population part of `handleProxyChange` (lines 118-139):
resets bind address, bind port and target address to their defaults, then
overrides from the recognized keys of the proxy configuration block. -/
def handleProxyChangeDown (d : downstream) (srv : api.AgentService) : downstream :=
  let d := { d with LocalBindAddress := defaultDownstreamBindAddr
                    LocalBindPort := srv.Port
                    TargetAddress := defaultUpstreamBindAddr }
  match srv.Proxy with
  | none => d
  | some p =>
    match p.Config with
    | none => d
    | some cfg =>
      let d := match cfgGetStr cfg "protocol" with
        | some c => { d with Protocol := c }
        | none => d
      let d := match cfgGetStr cfg "bind_address" with
        | some b => { d with LocalBindAddress := b }
        | none => d
      let d := match cfgGetStr cfg "local_service_address" with
        | some a => { d with TargetAddress := a }
        | none => d
      let d := match cfgGetBool cfg "enable_forwardfor" with
        | some f => { d with EnableForwardFor := f }
        | none => d
      let d := match cfgGetStr cfg "appname_header" with
        | some a => { d with AppNameHeaderName := a }
        | none => d
      d

/-- One iteration of the start loop of `handleProxyChange` (lines 144-158):
if the key is not yet tracked, dispatch on the destination type and start
the matching upstream watcher. -/
def reconcileStep (pd : String → Option Int) (acc : List (String × upstream))
    (up : api.Upstream) : List (String × upstream) :=
  let name := upstreamKey up
  if (acc.lookup name).isSome then acc
  else if up.DestinationType = api.UpstreamDestTypePreparedQuery then
    (startUpstreamPreparedQuery pd up name acc).1
  else
    startUpstreamService up name acc

/-- The upstream list of a registration (empty when `srv.Proxy` is nil). -/
def proxyUpstreams (srv : api.AgentService) : List api.Upstream :=
  match srv.Proxy with
  | some p => p.Upstreams
  | none => []

/-- The desired key set derived from a registration. -/
def desiredKeys (srv : api.AgentService) : List String :=
  (proxyUpstreams srv).map upstreamKey

/-- The reconciliation part of `handleProxyChange` (lines 141-165): the start
loop over the registration's upstream list followed by the removal loop over
the tracked map.  Returns the reconciled map and the stopped watchers
(each with its done flag set, as `removeUpstream` leaves them). -/
def handleProxyChangeUps (pd : String → Option Int) (srv : api.AgentService)
    (m : List (String × upstream)) :
    List (String × upstream) × List (String × upstream) :=
  let keep := desiredKeys srv
  let m1 := (proxyUpstreams srv).foldl (reconcileStep pd) m
  (m1.filter (fun q => keep.contains q.1),
   (m1.filter (fun q => !(keep.contains q.1))).map
     (fun q => (q.1, { q.2 with done := true })))

/-!
## The step machine

The goroutines of `Run` are modelled as a deterministic machine driven by an
event per loop iteration.  Besides the shared state of the `Watcher` record,
the machine carries the loop-local variables of each goroutine (tracked
indices/hashes, `first` flags, the per-upstream `index` and `last` locals)
and ghost instrumentation: per-watcher success counters, the four
`ready.Done` flags, and a `crashed` flag recording a nil dereference of
`w.leaf` inside `genCfg`.
-/

/-- The whole-system state of the step machine. -/
structure MachineState where
  -- loop-local state of watchLeaf
  leafIdx : Nat
  leafFirst : Bool
  -- loop-local state of watchCA
  caIdx : Nat
  caFirst : Bool
  -- loop-local state of watchService(proxyID, handleProxyChange)
  proxyHash : String
  proxyFirst : Bool
  -- loop-local state of watchService(w.service, port handler)
  portHash : String
  portFirst : Bool
  -- shared state guarded by w.lock
  leaf : Option certLeaf
  certCAs : List String
  down : downstream
  upstreams : List (String × upstream)
  -- goroutine-local `index` of each direct-service upstream loop
  upIdx : List (String × Nat)
  -- goroutine-local `last` of each prepared-query upstream loop
  pqLast : List (String × Option (List api.ServiceEntry))
  -- the single-slot update channel (true = one signal buffered)
  update : Bool
  -- the ready WaitGroup counter (starts at 4)
  readyCount : Nat
  -- configurations emitted on w.C, oldest first
  emitted : List Config
  -- a nil dereference of w.leaf occurred inside genCfg
  crashed : Bool
  -- ghost: ready.Done was called by the respective watcher
  leafDone : Bool
  caDone : Bool
  proxyDone : Bool
  portDone : Bool
  -- ghost: number of successful poll iterations of the respective watcher
  leafSucc : Nat
  caSucc : Nat
  proxySucc : Nat
  portSucc : Nat
deriving Repr

/-- The event alphabet: one completed loop iteration of one goroutine.
Each payload is the outcome the registry returned to that iteration's
blocking query (`none` = transport error). -/
inductive Ev where
  | leafPoll (res : Option (api.LeafCert × Nat))
  | caPoll (res : Option (List String × Nat))
  | proxyPoll (res : Option (api.AgentService × String))
  | portPoll (res : Option (api.AgentService × String))
  | upPoll (name : String) (res : Option (List api.ServiceEntry × Nat))
  | pqPoll (name : String) (res : Option (List api.ServiceEntry))
  | synth

/-- One iteration of `watchLeaf` (lines 298-336): on error reset the index;
on success apply the change handler when the index moved, then signal
readiness on the first successful iteration. -/
def doLeafPoll (s : MachineState) (res : Option (api.LeafCert × Nat)) :
    MachineState :=
  match res with
  | none => { s with leafIdx := 0 }
  | some (cert, idx) =>
    let changed := s.leafIdx != idx
    let s1 := { s with leafIdx := idx, leafSucc := s.leafSucc + 1 }
    let s2 :=
      if changed then
        { s1 with leaf := some { Cert := cert.CertPEM, Key := cert.PrivateKeyPEM,
                                 done := false }
                  update := true }
      else s1
    if s2.leafFirst then
      { s2 with readyCount := s2.readyCount - 1, leafFirst := false, leafDone := true }
    else s2

/-- One iteration of `watchCA` (lines 368-410): wholesale replacement of the
CA list on change, readiness on first success. -/
def doCAPoll (s : MachineState) (res : Option (List String × Nat)) :
    MachineState :=
  match res with
  | none => { s with caIdx := 0 }
  | some (roots, idx) =>
    let changed := s.caIdx != idx
    let s1 := { s with caIdx := idx, caSucc := s.caSucc + 1 }
    let s2 :=
      if changed then { s1 with certCAs := roots, update := true }
      else s1
    if s2.caFirst then
      { s2 with readyCount := s2.readyCount - 1, caFirst := false, caDone := true }
    else s2

/-- One iteration of `watchService(proxyID, w.handleProxyChange)`: the hash
discipline of lines 343-365 around the handler of lines 118-170.  The
handler (and hence `ready.Done`) runs only when the hash moved; the loop's
`first` flag drops on every successful iteration. -/
def doProxyPoll (pd : String → Option Int) (s : MachineState)
    (res : Option (api.AgentService × String)) : MachineState :=
  match res with
  | none => { s with proxyHash := "" }
  | some (srv, h) =>
    let changed := s.proxyHash != h
    let s1 := { s with proxyHash := h, proxySucc := s.proxySucc + 1 }
    let s2 :=
      if changed then
        let m := (handleProxyChangeUps pd srv s1.upstreams).1
        let s3 :=
          { s1 with down := handleProxyChangeDown s1.down srv
                    upstreams := m
                    upIdx := m.map (fun p : String × upstream =>
                      (p.1, (s1.upIdx.lookup p.1).getD 0))
                    pqLast := m.map (fun p : String × upstream =>
                      (p.1, ((s1.pqLast.lookup p.1).getD none)))
                    update := true }
        if s3.proxyFirst then
          { s3 with readyCount := s3.readyCount - 1, proxyDone := true }
        else s3
      else s1
    { s2 with proxyFirst := false }

/-- One iteration of `watchService(w.service, ...)` with the port handler of
lines 102-107: stores the service port as the downstream target port. -/
def doPortPoll (s : MachineState) (res : Option (api.AgentService × String)) :
    MachineState :=
  match res with
  | none => { s with portHash := "" }
  | some (srv, h) =>
    let changed := s.portHash != h
    let s1 := { s with portHash := h, portSucc := s.portSucc + 1 }
    let s2 :=
      if changed then
        let s3 := { s1 with down := { s1.down with TargetPort := srv.Port }
                            update := true }
        if s3.portFirst then
          { s3 with readyCount := s3.readyCount - 1, portDone := true }
        else s3
      else s1
    { s2 with portFirst := false }

/-- One iteration of the direct-service upstream goroutine (lines 190-217)
for the upstream tracked under `name`.  An event for an untracked name is a
no-op: that goroutine has observed its done flag and exited, and in-flight
results of a removed upstream are discarded with it. -/
def doUpPoll (s : MachineState) (name : String)
    (res : Option (List api.ServiceEntry × Nat)) : MachineState :=
  match s.upstreams.lookup name with
  | none => s
  | some u =>
    match res with
    | none => { s with upIdx := assocSet s.upIdx name 0 }
    | some (nodes, idx) =>
      let i := (s.upIdx.lookup name).getD 0
      let changed := i != idx
      let s1 := { s with upIdx := assocSet s.upIdx name idx }
      if changed then
        { s1 with upstreams := assocSet s1.upstreams name { u with Nodes := nodes }
                  update := true }
      else s1

/-- One iteration of the prepared-query upstream goroutine (lines 254-286)
for the upstream tracked under `name`, via `pqStep`. -/
def doPqPoll (s : MachineState) (name : String)
    (res : Option (List api.ServiceEntry)) : MachineState :=
  match s.upstreams.lookup name with
  | none => s
  | some u =>
    let r := pqStep u ((s.pqLast.lookup name).getD none) res
    let s1 := { s with upstreams := assocSet s.upstreams name r.1
                       pqLast := assocSet s.pqLast name r.2.1 }
    if r.2.2 = 0 then s1 else { s1 with update := true }

/-- One iteration of the synthesizer loop of `Run` (lines 109-113): while
`ready.Wait` has not returned (`readyCount ≠ 0`) or no signal is buffered,
nothing happens; otherwise the signal is consumed and `genCfg` runs, which
dereferences `w.leaf` (a nil leaf crashes the process).  The service
identifier strings are irrelevant to every claim and fixed to their startup
values. -/
def doSynth (s : MachineState) : MachineState :=
  if s.readyCount = 0 ∧ s.update = true then
    match s.leaf with
    | some lf =>
      { s with update := false
               emitted := s.emitted ++
                 [genCfg "" "" s.certCAs lf s.down s.upstreams] }
    | none => { s with crashed := true }
  else s

/-- The machine's transition function.  A crashed machine (nil dereference
panic) takes no further steps. -/
def stepM (pd : String → Option Int) (s : MachineState) (e : Ev) : MachineState :=
  if s.crashed then s
  else
    match e with
    | .leafPoll res => doLeafPoll s res
    | .caPoll res => doCAPoll s res
    | .proxyPoll res => doProxyPoll pd s res
    | .portPoll res => doPortPoll s res
    | .upPoll name res => doUpPoll s name res
    | .pqPoll name res => doPqPoll s name res
    | .synth => doSynth s

/-- The state right after `New` and the `ready.Add(4)` of `Run`: everything
empty, four readiness slots outstanding. -/
def initState : MachineState :=
  { leafIdx := 0, leafFirst := true
    caIdx := 0, caFirst := true
    proxyHash := "", proxyFirst := true
    portHash := "", portFirst := true
    leaf := none
    certCAs := []
    down := { LocalBindAddress := "", LocalBindPort := 0, Protocol := ""
              TargetAddress := "", TargetPort := 0, EnableForwardFor := false
              AppNameHeaderName := "" }
    upstreams := [], upIdx := [], pqLast := []
    update := false
    readyCount := 4
    emitted := []
    crashed := false
    leafDone := false, caDone := false, proxyDone := false, portDone := false
    leafSucc := 0, caSucc := 0, proxySucc := 0, portSucc := 0 }

/-- Running the machine over a schedule of events. -/
def runMachine (pd : String → Option Int) (evs : List Ev) : MachineState :=
  evs.foldl (stepM pd) initState

/-!
## Claims
-/

/-- Claim C1: an instance of a tracked upstream appears in the synthesized
node list exactly when its aggregated status is passing or warning and the
matching configured weight is non-zero; an included instance carries that
configured weight, and the synthesized list is (a permutation of) the
per-instance results, so an excluded instance never appears. -/
theorem c1_weight_exclusion (nodes : List api.ServiceEntry) (s : api.ServiceEntry) :
    ((instNode s).isSome = true ↔
      ((s.Checks.AggregatedStatus = api.HealthPassing ∧ s.Service.Weights.Passing ≠ 0) ∨
       (s.Checks.AggregatedStatus = api.HealthWarning ∧ s.Service.Weights.Warning ≠ 0)))
    ∧ (∀ n : UpstreamNode, instNode s = some n →
        (s.Checks.AggregatedStatus = api.HealthPassing ∧
          n.Weight = s.Service.Weights.Passing) ∨
        (s.Checks.AggregatedStatus = api.HealthWarning ∧
          n.Weight = s.Service.Weights.Warning))
    ∧ (genUpstreamNodes nodes).Perm (nodes.filterMap instNode) := by
  refine ⟨?_, ?_, List.perm_insertionSort _ _⟩
  · unfold instNode
    split_ifs <;> simp_all [api.HealthPassing, api.HealthWarning]
  · intro n hn
    unfold instNode at hn
    split_ifs at hn <;> (try simp only [Option.some.injEq] at hn) <;>
      subst hn <;> simp_all [api.HealthPassing, api.HealthWarning]

/-- A concrete passing instance of weight 10. -/
def entryPassing : api.ServiceEntry :=
  { Node := { Node := "n1", Address := "10.0.0.1" }
    Service := { Service := "t", Address := "", Port := 8080,
                 Weights := { Passing := 10, Warning := 5 }, Proxy := none }
    Checks := { AggregatedStatus := "passing" } }

/-- Witness for C1 at a concrete passing instance. -/
theorem c1_weight_exclusion_witness :
    instNode entryPassing =
      some { Name := "n1", Address := "10.0.0.1", Port := 8080, Weight := 10 } ∧
    ((entryPassing.Checks.AggregatedStatus = api.HealthPassing ∧
        ({ Name := "n1", Address := "10.0.0.1", Port := 8080,
           Weight := 10 } : UpstreamNode).Weight = entryPassing.Service.Weights.Passing) ∨
     (entryPassing.Checks.AggregatedStatus = api.HealthWarning ∧
        ({ Name := "n1", Address := "10.0.0.1", Port := 8080,
           Weight := 10 } : UpstreamNode).Weight = entryPassing.Service.Weights.Warning)) :=
  ⟨by decide,
   (c1_weight_exclusion [entryPassing] entryPassing).2.1
     { Name := "n1", Address := "10.0.0.1", Port := 8080, Weight := 10 } (by decide)⟩

/-- Buffered signals never exceed the capacity once they start below it. -/
theorem notifyChanged_le_cap (q : Nat) (hq : q ≤ updateChanCap) :
    notifyChanged q ≤ updateChanCap := by
  unfold notifyChanged
  split <;> omega

/-- Iterating the notifier on a full buffer leaves it full. -/
theorem notifyChanged_iterate_full (m : Nat) : Nat.iterate notifyChanged m 1 = 1 := by
  induction m with
  | zero => rfl
  | succ k ih =>
    rw [Function.iterate_succ_apply]
    simpa [notifyChanged, updateChanCap] using ih

/-- Claim C2: the update channel has capacity one; N ≥ 1 notifications before
the synthesizer drains leave exactly one buffered signal (one regeneration),
a send while a signal is pending is a silent no-op, and at most one signal is
ever pending. -/
theorem c2_coalescing (n : Nat) (hn : 1 ≤ n) (q : Nat) (hq : q ≤ updateChanCap) :
    updateChanCap = 1
    ∧ Nat.iterate notifyChanged n 0 = 1
    ∧ notifyChanged 1 = 1
    ∧ notifyChanged q ≤ updateChanCap := by
  refine ⟨rfl, ?_, by simp [notifyChanged, updateChanCap],
          notifyChanged_le_cap q hq⟩
  obtain ⟨k, rfl⟩ : ∃ k, n = k + 1 := ⟨n - 1, by omega⟩
  rw [Function.iterate_succ_apply]
  simpa [notifyChanged, updateChanCap] using notifyChanged_iterate_full k

/-- Witness for C2 at N = 3 sends. -/
theorem c2_coalescing_witness :
    (1 ≤ 3 ∧ (1 : Nat) ≤ updateChanCap) ∧ Nat.iterate notifyChanged 3 0 = 1 :=
  ⟨⟨by decide, by decide⟩, (c2_coalescing 3 (by decide) 1 (by decide)).2.1⟩

/-- Claim C5: every index/hash-based watcher resets its tracked position on a
transient error (before the fixed 5-second backoff and retry), so the next
successful poll — here returning the very position tracked before the error,
i.e. unchanged server state — is treated as changed. -/
theorem c5_resync_on_error (cert : api.LeafCert) (roots : List String)
    (srv : api.AgentService) (nodes : List api.ServiceEntry)
    (v : Nat) (hv : v ≠ 0) (ch : String) (hch : ch ≠ "") :
    errorWaitTime = 5
    ∧ (∀ li, watchLeafStep li none = (0, false))
    ∧ (watchLeafStep (watchLeafStep v none).1 (some (cert, v))).2 = true
    ∧ (∀ ci, watchCAStep ci none = (0, false))
    ∧ (watchCAStep (watchCAStep v none).1 (some (roots, v))).2 = true
    ∧ (∀ h, watchServiceStep h none = ("", false))
    ∧ (watchServiceStep (watchServiceStep ch none).1 (some (srv, ch))).2 = true
    ∧ (∀ ui, upstreamServiceStep ui none = (0, false))
    ∧ (upstreamServiceStep (upstreamServiceStep v none).1 (some (nodes, v))).2 = true := by
  refine ⟨rfl, fun li => rfl, ?_, fun ci => rfl, ?_, fun h => rfl, ?_, fun ui => rfl, ?_⟩ <;>
    simp [watchLeafStep, watchCAStep, watchServiceStep, upstreamServiceStep,
          bne_iff_ne] <;>
    first
    | omega
    | exact fun hc => hch hc.symm

/-- Witness for C5 at index 3 and hash "x". -/
theorem c5_resync_on_error_witness :
    ((3 : Nat) ≠ 0 ∧ ("x" : String) ≠ "")
    ∧ (watchLeafStep (watchLeafStep 3 none).1
        (some ({ CertPEM := "c", PrivateKeyPEM := "k" }, 3))).2 = true :=
  ⟨⟨by decide, by decide⟩,
   (c5_resync_on_error { CertPEM := "c", PrivateKeyPEM := "k" } []
     { Service := "", Address := "", Port := 0,
       Weights := { Passing := 0, Warning := 0 }, Proxy := none } []
     3 (by decide) "x" (by decide)).2.2.1⟩

/-- Claim C6: a prepared-query upstream whose config block has a
`poll_interval` string that fails to parse is never registered and its poll
loop is never started; the tracked map is returned unchanged (all other
upstreams unaffected) and the function returns normally (not fatal). -/
theorem c6_bad_poll_interval (pd : String → Option Int) (up : api.Upstream)
    (name : String) (m : List (String × upstream)) (p : String)
    (hs : cfgGetStr up.Config "poll_interval" = some p)
    (hf : pd p = none) :
    startUpstreamPreparedQuery pd up name m = (m, none) := by
  simp [startUpstreamPreparedQuery, hs, hf]

/-- A prepared-query upstream whose poll interval does not parse
(`time.ParseDuration("bogus")` fails). -/
def badPqUpstream : api.Upstream :=
  { DestinationType := "prepared_query", DestinationName := "X", Datacenter := ""
    LocalBindAddress := "", LocalBindPort := 1
    Config := [("poll_interval", api.ConfigVal.str "bogus")] }

/-- A model of `time.ParseDuration` that rejects every string; only its
value on "bogus" (which the real function indeed rejects) is used. -/
def pdNone : String → Option Int := fun _ => none

/-- Witness for C6 at the concrete malformed upstream. -/
theorem c6_bad_poll_interval_witness :
    (cfgGetStr badPqUpstream.Config "poll_interval" = some "bogus" ∧
      pdNone "bogus" = none)
    ∧ startUpstreamPreparedQuery pdNone badPqUpstream "prepared_query_X"
        [("k0", { LocalBindAddress := "", LocalBindPort := 0, Name := "k0",
                  Datacenter := "", Protocol := "", Nodes := [], done := false })] =
      ([("k0", { LocalBindAddress := "", LocalBindPort := 0, Name := "k0",
                 Datacenter := "", Protocol := "", Nodes := [], done := false })], none) :=
  ⟨⟨by decide, rfl⟩,
   c6_bad_poll_interval pdNone badPqUpstream "prepared_query_X" _ "bogus" (by decide) rfl⟩

/-- Claim C7: a prepared-query poll updates the node list and notifies
exactly once when the returned list differs structurally from the previous
poll's result, and does nothing (zero notifications, state unchanged) when
the two are structurally equal. -/
theorem c7_pq_change_detection (u : upstream) (hu : u.done = false)
    (prev nodes : List api.ServiceEntry) :
    ((pqStep u (some prev) (some nodes)).2.2 = 1 ↔ nodes ≠ prev)
    ∧ ((pqStep u (some prev) (some nodes)).2.2 = 0 ↔ nodes = prev)
    ∧ (nodes ≠ prev →
        (pqStep u (some prev) (some nodes)).1 = { u with Nodes := nodes } ∧
        (pqStep u (some prev) (some nodes)).2.1 = some nodes)
    ∧ (nodes = prev → pqStep u (some prev) (some nodes) = (u, some prev, 0)) := by
  by_cases hp : prev = nodes <;> simp [pqStep, hu, hp] <;> simp [eq_comm, hp]

/-- Witness for C7: one added node between two polls is a change. -/
theorem c7_pq_change_detection_witness :
    (({ LocalBindAddress := "", LocalBindPort := 0, Name := "u",
        Datacenter := "", Protocol := "", Nodes := [], done := false } : upstream).done
      = false)
    ∧ (pqStep { LocalBindAddress := "", LocalBindPort := 0, Name := "u",
                Datacenter := "", Protocol := "", Nodes := [], done := false }
         (some []) (some [entryPassing])).2.2 = 1 :=
  ⟨rfl,
   ((c7_pq_change_detection _ rfl [] [entryPassing]).1).mpr (by decide)⟩

/-- The configuration block of a registration, `none` when `srv.Proxy` or
its `Config` map is nil. -/
def proxyCfg (srv : api.AgentService) : Option (List (String × api.ConfigVal)) :=
  match srv.Proxy with
  | some p => p.Config
  | none => none

/-- Typed string lookup through the optional configuration block. -/
def optGetStr (c : Option (List (String × api.ConfigVal))) (k : String) :
    Option String :=
  match c with
  | some cfg => cfgGetStr cfg k
  | none => none

/-- Typed bool lookup through the optional configuration block. -/
def optGetBool (c : Option (List (String × api.ConfigVal))) (k : String) :
    Option Bool :=
  match c with
  | some cfg => cfgGetBool cfg k
  | none => none

/-- Claim C8: on every self-registration change the downstream spec is
repopulated using exactly the recognized keys — `protocol`,
`bind_address` (default 0.0.0.0), `local_service_address` (default
127.0.0.1), `enable_forwardfor`, `appname_header` — with a missing or
non-matching key keeping the prior value (for `protocol`,
`enable_forwardfor`, `appname_header`) or the documented default (for the
two addresses); unrecognized keys are ignored and nothing errors. -/
theorem c8_downstream_population (d : downstream) (srv : api.AgentService) :
    (handleProxyChangeDown d srv).Protocol
        = (optGetStr (proxyCfg srv) "protocol").getD d.Protocol
    ∧ (handleProxyChangeDown d srv).LocalBindAddress
        = (optGetStr (proxyCfg srv) "bind_address").getD defaultDownstreamBindAddr
    ∧ (handleProxyChangeDown d srv).TargetAddress
        = (optGetStr (proxyCfg srv) "local_service_address").getD defaultUpstreamBindAddr
    ∧ (handleProxyChangeDown d srv).EnableForwardFor
        = (optGetBool (proxyCfg srv) "enable_forwardfor").getD d.EnableForwardFor
    ∧ (handleProxyChangeDown d srv).AppNameHeaderName
        = (optGetStr (proxyCfg srv) "appname_header").getD d.AppNameHeaderName
    ∧ (handleProxyChangeDown d srv).LocalBindPort = srv.Port
    ∧ (handleProxyChangeDown d srv).TargetPort = d.TargetPort := by
  rcases srv with ⟨sv, ad, port, wt, proxy⟩
  rcases proxy with _ | ⟨cfg, ups⟩
  · simp [handleProxyChangeDown, proxyCfg, optGetStr, optGetBool]
  · rcases cfg with _ | cfg
    · simp [handleProxyChangeDown, proxyCfg, optGetStr, optGetBool]
    · cases h1 : cfgGetStr cfg "protocol" <;>
      cases h2 : cfgGetStr cfg "bind_address" <;>
      cases h3 : cfgGetStr cfg "local_service_address" <;>
      cases h4 : cfgGetBool cfg "enable_forwardfor" <;>
      cases h5 : cfgGetStr cfg "appname_header" <;>
        simp [handleProxyChangeDown, proxyCfg, optGetStr, optGetBool,
              h1, h2, h3, h4, h5]

/-- The codepoint comparison is total. -/
theorem charListLeb_total (as bs : List Char) :
    charListLeb as bs = true ∨ charListLeb bs as = true := by
  induction as generalizing bs with
  | nil => left; rfl
  | cons a as ih =>
    cases bs with
    | nil => right; rfl
    | cons b bs =>
      by_cases h1 : a.toNat < b.toNat
      · left; simp [charListLeb, h1]
      · by_cases h2 : b.toNat < a.toNat
        · right; simp [charListLeb, h1, h2]
        · have h3 := ih bs
          simpa [charListLeb, h1, h2] using h3

/-- The codepoint comparison is transitive. -/
theorem charListLeb_trans : ∀ {as bs cs : List Char},
    charListLeb as bs = true → charListLeb bs cs = true →
    charListLeb as cs = true := by
  intro as
  induction as with
  | nil => intro bs cs _ _; rfl
  | cons a as ih =>
    intro bs cs hab hbc
    cases bs with
    | nil => simp [charListLeb] at hab
    | cons b bs =>
      cases cs with
      | nil => simp [charListLeb] at hbc
      | cons c cs =>
        simp only [charListLeb] at hab hbc ⊢
        split_ifs at hab hbc ⊢ <;> try omega
        all_goals try rfl
        all_goals exact ih hab hbc

/-- The codepoint comparison is antisymmetric. -/
theorem charListLeb_antisymm : ∀ {as bs : List Char},
    charListLeb as bs = true → charListLeb bs as = true → as = bs := by
  intro as
  induction as with
  | nil =>
    intro bs _ hba
    cases bs with
    | nil => rfl
    | cons b bs => simp [charListLeb] at hba
  | cons a as ih =>
    intro bs hab hba
    cases bs with
    | nil => simp [charListLeb] at hab
    | cons b bs =>
      simp only [charListLeb] at hab hba
      split_ifs at hab hba <;> try omega
      have hc : a = b := by
        have : a.toNat = b.toNat := by omega
        simpa [Char.ext_iff, UInt32.ext_iff] using this
      rw [hc, ih hab hba]

/-- Antisymmetry lifted to strings. -/
theorem strLeb_antisymm (a b : String) (hab : strLeb a b = true)
    (hba : strLeb b a = true) : a = b := by
  cases a; cases b
  simp only [strLeb] at hab hba
  exact congrArg String.mk (charListLeb_antisymm hab hba)

instance : IsTrans UpstreamNode nodeNameLe :=
  ⟨fun _ _ _ h1 h2 => charListLeb_trans h1 h2⟩

instance : IsTotal UpstreamNode nodeNameLe :=
  ⟨fun a b => charListLeb_total a.Name.data b.Name.data⟩

/-- Strict name order on synthesized nodes. -/
def nodeNameLt (a b : UpstreamNode) : Prop := strLeb b.Name a.Name = false

instance : IsAntisymm UpstreamNode nodeNameLt :=
  ⟨fun a b h1 h2 => by
    rcases charListLeb_total a.Name.data b.Name.data with h | h
    · exact absurd h (by simpa [nodeNameLt, strLeb] using h2)
    · exact absurd h (by simpa [nodeNameLt, strLeb] using h1)⟩

/-- A name-sorted node list with pairwise-distinct names is strictly
sorted. -/
theorem sorted_lt_of_sorted_le_nodup (l : List UpstreamNode)
    (hs : l.Sorted nodeNameLe) (hn : (l.map UpstreamNode.Name).Nodup) :
    l.Sorted nodeNameLt := by
  have hne : l.Pairwise (fun a b : UpstreamNode => a.Name ≠ b.Name) :=
    (List.pairwise_map).1 hn
  refine (hs.and hne).imp (fun {a b} h => ?_)
  by_cases hba : strLeb b.Name a.Name = true
  · exact absurd (strLeb_antisymm _ _ h.1 hba) h.2
  · simpa [nodeNameLt] using hba

/-- Two entries on the same node name "n" with different service addresses:
arrival order decides which synthesized node comes first. -/
def dupNameA : api.ServiceEntry :=
  { Node := { Node := "n", Address := "x" }
    Service := { Service := "t", Address := "a", Port := 1,
                 Weights := { Passing := 1, Warning := 1 }, Proxy := none }
    Checks := { AggregatedStatus := "passing" } }

/-- Same node name as `dupNameA`, service address "b". -/
def dupNameB : api.ServiceEntry :=
  { Node := { Node := "n", Address := "x" }
    Service := { Service := "t", Address := "b", Port := 1,
                 Weights := { Passing := 1, Warning := 1 }, Proxy := none }
    Checks := { AggregatedStatus := "passing" } }

/-- Counterexample to C9 as stated: for the two-instance input set
{dupNameA, dupNameB} — two surviving passing instances sharing the node name
"n" — the two arrival orders synthesize different node lists, so the output
is not independent of arrival order without a distinct-names assumption. -/
theorem c9_counterexample :
    [dupNameA, dupNameB].Perm [dupNameB, dupNameA]
    ∧ genUpstreamNodes [dupNameA, dupNameB] ≠ genUpstreamNodes [dupNameB, dupNameA] :=
  ⟨List.Perm.swap dupNameB dupNameA [], by decide⟩

/-- Claim C9, amended: provided the surviving instances carry pairwise
distinct node names, the synthesized node list is sorted by name ascending
and identical for every arrival order of the input instances; the address of
every synthesized node falls back from the service-level address to the
node-level address exactly when the former is empty. -/
theorem c9_sorted_deterministic (nodes other : List api.ServiceEntry)
    (hnd : ((nodes.filterMap instNode).map UpstreamNode.Name).Nodup)
    (hp : other.Perm nodes) :
    genUpstreamNodes other = genUpstreamNodes nodes
    ∧ (genUpstreamNodes nodes).Sorted nodeNameLe
    ∧ (∀ s n, instNode s = some n →
        n.Address = if s.Service.Address = "" then s.Node.Address
                    else s.Service.Address) := by
  have hsorted : ∀ l : List api.ServiceEntry,
      (genUpstreamNodes l).Sorted nodeNameLe := fun l =>
    List.sorted_insertionSort nodeNameLe (l.filterMap instNode)
  have hperm : (genUpstreamNodes other).Perm (genUpstreamNodes nodes) :=
    ((List.perm_insertionSort nodeNameLe (other.filterMap instNode)).trans
        (hp.filterMap instNode)).trans
      (List.perm_insertionSort nodeNameLe (nodes.filterMap instNode)).symm
  have hnod2 : ((genUpstreamNodes nodes).map UpstreamNode.Name).Nodup := by
    have := (List.perm_insertionSort nodeNameLe
      (nodes.filterMap instNode)).map UpstreamNode.Name
    exact this.nodup_iff.2 hnd
  have hnod1 : ((genUpstreamNodes other).map UpstreamNode.Name).Nodup :=
    (hperm.map UpstreamNode.Name).nodup_iff.2 hnod2
  refine ⟨?_, hsorted nodes, ?_⟩
  · exact List.eq_of_perm_of_sorted hperm
      (sorted_lt_of_sorted_le_nodup _ (hsorted other) hnod1)
      (sorted_lt_of_sorted_le_nodup _ (hsorted nodes) hnod2)
  · intro s n hn
    unfold instNode at hn
    split_ifs at hn <;> (try simp only [Option.some.injEq] at hn) <;>
      subst hn <;> simp_all

/-- An entry on node "n2" with an empty service address (the synthesized
address falls back to the node address). -/
def entryN2 : api.ServiceEntry :=
  { Node := { Node := "n2", Address := "10.0.0.2" }
    Service := { Service := "t", Address := "", Port := 8080,
                 Weights := { Passing := 10, Warning := 5 }, Proxy := none }
    Checks := { AggregatedStatus := "passing" } }

/-- Witness for the amended C9: both arrival orders of {n1, n2} synthesize
the same list, sorted [n1, n2]. -/
theorem c9_sorted_deterministic_witness :
    ((([entryPassing, entryN2].filterMap instNode).map UpstreamNode.Name).Nodup ∧
      [entryN2, entryPassing].Perm [entryPassing, entryN2])
    ∧ genUpstreamNodes [entryN2, entryPassing]
        = genUpstreamNodes [entryPassing, entryN2] :=
  ⟨⟨by decide, List.Perm.swap entryPassing entryN2 []⟩,
   (c9_sorted_deterministic [entryPassing, entryN2] [entryN2, entryPassing]
     (by decide) (List.Perm.swap entryPassing entryN2 [])).1⟩

/-- A lookup succeeds exactly on the tracked keys. -/
theorem lookup_isSome_iff {α : Type} (m : List (String × α)) (k : String) :
    (m.lookup k).isSome = true ↔ k ∈ m.map Prod.fst := by
  induction m with
  | nil => simp [List.lookup]
  | cons h t ih =>
    obtain ⟨a, b⟩ := h
    by_cases hk : k = a
    · simp [List.lookup, hk]
    · have hb : (k == a) = false := by simp [hk]
      simp [List.lookup, hb, ih, hk]

/-- Keys surviving a delete-by-key filter. -/
theorem mem_keys_filter_ne {α : Type} (m : List (String × α)) (k x : String) :
    x ∈ (m.filter (fun p => p.1 != k)).map Prod.fst ↔
      x ∈ m.map Prod.fst ∧ x ≠ k := by
  simp only [List.mem_map, List.mem_filter, bne_iff_ne]
  constructor
  · rintro ⟨p, ⟨hp, hpk⟩, rfl⟩
    exact ⟨⟨p, hp, rfl⟩, hpk⟩
  · rintro ⟨⟨p, hp, rfl⟩, hxk⟩
    exact ⟨p, ⟨hp, hxk⟩, rfl⟩

/-- Key set of a Go-map assignment. -/
theorem mem_keys_assocSet {α : Type} (m : List (String × α)) (k x : String) (v : α) :
    x ∈ (assocSet m k v).map Prod.fst ↔ x = k ∨ x ∈ m.map Prod.fst := by
  simp only [assocSet, List.map_cons, List.mem_cons, mem_keys_filter_ne]
  by_cases hx : x = k <;> simp [hx]

/-- The start loop never removes a tracked key. -/
theorem mem_keys_reconcileStep (pd : String → Option Int)
    (acc : List (String × upstream)) (up : api.Upstream) (k : String)
    (h : k ∈ acc.map Prod.fst) :
    k ∈ (reconcileStep pd acc up).map Prod.fst := by
  simp only [reconcileStep]
  split_ifs with h1 h2
  · exact h
  · simp only [startUpstreamPreparedQuery]
    split
    · split
      · exact h
      · exact (mem_keys_assocSet _ _ _ _).2 (Or.inr h)
    · exact (mem_keys_assocSet _ _ _ _).2 (Or.inr h)
  · exact (mem_keys_assocSet _ _ _ _).2 (Or.inr h)

/-- The whole start loop never removes a tracked key. -/
theorem mem_keys_foldl (pd : String → Option Int) (ups : List api.Upstream)
    (acc : List (String × upstream)) (k : String) (h : k ∈ acc.map Prod.fst) :
    k ∈ (ups.foldl (reconcileStep pd) acc).map Prod.fst := by
  induction ups generalizing acc with
  | nil => simpa using h
  | cons u t ih => exact ih _ (mem_keys_reconcileStep pd acc u k h)

/-- The per-upstream well-formedness side condition forced by C6: when the
config block carries a `poll_interval` string, it parses. -/
def pqIntervalOk (pd : String → Option Int) (up : api.Upstream) : Prop :=
  ∀ p, cfgGetStr up.Config "poll_interval" = some p → (pd p).isSome = true

/-- A desired upstream's key is tracked right after its start-loop
iteration, provided a malformed prepared query was not started here. -/
theorem key_mem_reconcileStep (pd : String → Option Int)
    (acc : List (String × upstream)) (up : api.Upstream)
    (hok : up.DestinationType = api.UpstreamDestTypePreparedQuery →
           upstreamKey up ∉ acc.map Prod.fst → pqIntervalOk pd up) :
    upstreamKey up ∈ (reconcileStep pd acc up).map Prod.fst := by
  simp only [reconcileStep]
  split_ifs with h1 h2
  · exact (lookup_isSome_iff acc (upstreamKey up)).1 h1
  · have hnot : upstreamKey up ∉ acc.map Prod.fst := fun hmem =>
      h1 ((lookup_isSome_iff acc (upstreamKey up)).2 hmem)
    have hp := hok h2 hnot
    simp only [startUpstreamPreparedQuery]
    split
    · rename_i p hs
      split
      · rename_i hd
        exact absurd (hp p hs) (by simp [hd])
      · exact (mem_keys_assocSet _ _ _ _).2 (Or.inl rfl)
    · exact (mem_keys_assocSet _ _ _ _).2 (Or.inl rfl)
  · simp only [startUpstreamService]
    exact (mem_keys_assocSet _ _ _ _).2 (Or.inl rfl)

/-- After the whole start loop every desired key is tracked, provided no
newly-desired prepared query is malformed. -/
theorem keys_covered_foldl (pd : String → Option Int) (ups : List api.Upstream)
    (m acc : List (String × upstream))
    (hsub : ∀ x, x ∈ m.map Prod.fst → x ∈ acc.map Prod.fst)
    (hok : ∀ u ∈ ups, u.DestinationType = api.UpstreamDestTypePreparedQuery →
           upstreamKey u ∉ m.map Prod.fst → pqIntervalOk pd u) :
    ∀ u ∈ ups, upstreamKey u ∈ (ups.foldl (reconcileStep pd) acc).map Prod.fst := by
  induction ups generalizing acc with
  | nil => intro u hu; simp at hu
  | cons hd t ih =>
    intro u hu
    simp only [List.foldl_cons]
    rcases List.mem_cons.1 hu with rfl | hu2
    · refine mem_keys_foldl pd t _ _ (key_mem_reconcileStep pd acc u ?_)
      intro hpq hmem
      exact hok u (List.mem_cons_self u t) hpq (fun hm => hmem (hsub _ hm))
    · exact ih (reconcileStep pd acc hd)
        (fun x hx => mem_keys_reconcileStep pd acc hd x (hsub x hx))
        (fun w hw => hok w (List.mem_cons_of_mem hd hw)) u hu2

/-- Claim C4, amended: on a self-registration change, reconciliation makes
the tracked key set exactly the desired set — provided every newly-desired
prepared-query upstream has a parseable `poll_interval` (a malformed one is
logged and left untracked, per C6); every tracked key no longer desired is
stopped (done flag set) and removed. -/
theorem c4_reconciliation (pd : String → Option Int) (srv : api.AgentService)
    (m : List (String × upstream))
    (hok : ∀ u ∈ proxyUpstreams srv,
        u.DestinationType = api.UpstreamDestTypePreparedQuery →
        upstreamKey u ∉ m.map Prod.fst → pqIntervalOk pd u) :
    (∀ k, k ∈ (handleProxyChangeUps pd srv m).1.map Prod.fst ↔ k ∈ desiredKeys srv)
    ∧ (∀ q ∈ (handleProxyChangeUps pd srv m).2,
        q.2.done = true ∧ q.1 ∉ desiredKeys srv ∧
        q.1 ∉ (handleProxyChangeUps pd srv m).1.map Prod.fst) := by
  constructor
  · intro k
    constructor
    · intro hk
      simp only [handleProxyChangeUps, List.mem_map] at hk
      obtain ⟨q, hq, rfl⟩ := hk
      have hc := (List.mem_filter.1 hq).2
      simpa [desiredKeys] using (by simpa using hc : q.1 ∈ desiredKeys srv)
    · intro hk
      simp only [desiredKeys, List.mem_map] at hk
      obtain ⟨u, hu, rfl⟩ := hk
      have hcov := keys_covered_foldl pd (proxyUpstreams srv) m m
        (fun x h => h) hok u hu
      simp only [List.mem_map] at hcov
      obtain ⟨q, hq, hqk⟩ := hcov
      simp only [handleProxyChangeUps, List.mem_map]
      refine ⟨q, List.mem_filter.2 ⟨hq, ?_⟩, hqk⟩
      have : q.1 ∈ desiredKeys srv := by
        rw [hqk]; exact List.mem_map.2 ⟨u, hu, rfl⟩
      simpa [desiredKeys] using this
  · intro q hq
    simp only [handleProxyChangeUps, List.mem_map] at hq
    obtain ⟨q0, hq0, rfl⟩ := hq
    have h1 := (List.mem_filter.1 hq0).2
    have hnot : q0.1 ∉ desiredKeys srv := by
      intro hmem
      simp only [Bool.not_eq_true'] at h1
      have hc : (desiredKeys srv).contains q0.1 = true := by simpa using hmem
      rw [hc] at h1
      cases h1
    refine ⟨rfl, hnot, ?_⟩
    intro hmem
    simp only [List.mem_map] at hmem
    obtain ⟨q2, hq2, hq2k⟩ := hmem
    have hc2 := (List.mem_filter.1 hq2).2
    apply hnot
    rw [← hq2k]
    simpa using hc2

/-- A registration whose only upstream is the malformed prepared query
`badPqUpstream`. -/
def srvBadPq : api.AgentService :=
  { Service := "s", Address := "", Port := 1
    Weights := { Passing := 1, Warning := 1 }
    Proxy := some { Config := none, Upstreams := [badPqUpstream] } }

/-- Counterexample to C4 as stated: the desired set derived from
`srvBadPq` is {prepared_query_X}, but after reconciliation (from an empty
tracked map) the tracked set is empty — the malformed `poll_interval`
aborts `startUpstreamPreparedQuery` before it registers the upstream, so
the tracked key set is not equal to the desired set. -/
theorem c4_counterexample :
    desiredKeys srvBadPq = ["prepared_query_X"]
    ∧ (handleProxyChangeUps pdNone srvBadPq []).1 = []
    ∧ (handleProxyChangeUps pdNone srvBadPq []).2 = [] := by decide

/-- A direct-service upstream block named `nm`. -/
def upSvc (nm : String) : api.Upstream :=
  { DestinationType := "service", DestinationName := nm, Datacenter := ""
    LocalBindAddress := "", LocalBindPort := 1, Config := [] }

/-- A registration listing upstreams {A, B}. -/
def srvAB : api.AgentService :=
  { Service := "s", Address := "", Port := 1
    Weights := { Passing := 1, Warning := 1 }
    Proxy := some { Config := none, Upstreams := [upSvc "A", upSvc "B"] } }

/-- A registration listing upstreams {B, C}. -/
def srvBC : api.AgentService :=
  { Service := "s", Address := "", Port := 1
    Weights := { Passing := 1, Warning := 1 }
    Proxy := some { Config := none, Upstreams := [upSvc "B", upSvc "C"] } }

/-- The tracked map after reconciling {A, B} from empty. -/
def trackedAB : List (String × upstream) :=
  (handleProxyChangeUps pdNone srvAB []).1

/-- Witness for the amended C4: reconciling {B, C} over the tracked set
{A, B} tracks exactly B and C, and not A. -/
theorem c4_reconciliation_witness :
    "service_B" ∈ (handleProxyChangeUps pdNone srvBC trackedAB).1.map Prod.fst
    ∧ "service_C" ∈ (handleProxyChangeUps pdNone srvBC trackedAB).1.map Prod.fst
    ∧ "service_A" ∉ (handleProxyChangeUps pdNone srvBC trackedAB).1.map Prod.fst := by
  have hok : ∀ u ∈ proxyUpstreams srvBC,
      u.DestinationType = api.UpstreamDestTypePreparedQuery →
      upstreamKey u ∉ trackedAB.map Prod.fst → pqIntervalOk pdNone u := by
    intro u hu hpq
    simp only [proxyUpstreams, srvBC, List.mem_cons, List.not_mem_nil,
      or_false] at hu
    rcases hu with rfl | rfl <;> exact absurd hpq (by decide)
  have h := c4_reconciliation pdNone srvBC trackedAB hok
  refine ⟨(h.1 "service_B").2 (by decide), (h.1 "service_C").2 (by decide), ?_⟩
  intro hmem
  exact absurd ((h.1 "service_A").1 hmem) (by decide)

/-- Bool-to-Nat counter. -/
def b2n (b : Bool) : Nat := if b then 1 else 0

/-- The readiness invariant of the machine: the WaitGroup counter equals
four minus the number of completed `ready.Done` calls, each watcher calls
`ready.Done` at most once (its first flag still up means not yet done) and
only from within a successful iteration, and nothing is emitted before the
counter reaches zero. -/
def Inv (s : MachineState) : Prop :=
  s.readyCount + (b2n s.leafDone + b2n s.caDone + b2n s.proxyDone + b2n s.portDone) = 4
  ∧ (s.leafFirst = true → s.leafDone = false)
  ∧ (s.caFirst = true → s.caDone = false)
  ∧ (s.proxyFirst = true → s.proxyDone = false)
  ∧ (s.portFirst = true → s.portDone = false)
  ∧ (s.leafDone = true → 1 ≤ s.leafSucc)
  ∧ (s.caDone = true → 1 ≤ s.caSucc)
  ∧ (s.proxyDone = true → 1 ≤ s.proxySucc)
  ∧ (s.portDone = true → 1 ≤ s.portSucc)
  ∧ (s.emitted ≠ [] → s.readyCount = 0)

set_option maxHeartbeats 2000000 in
theorem inv_doLeafPoll (s : MachineState) (res : Option (api.LeafCert × Nat))
    (h : Inv s) : Inv (doLeafPoll s res) := by
  cases res with
  | none => exact h
  | some cr =>
    obtain ⟨cert, idx⟩ := cr
    simp only [doLeafPoll]
    unfold Inv b2n at h ⊢
    by_cases hch : (s.leafIdx != idx) = true <;>
      by_cases hf : s.leafFirst = true <;>
        simp only [hch, hf, if_true, if_false] <;>
        cases hld : s.leafDone <;> cases hcd : s.caDone <;>
        cases hpd : s.proxyDone <;> cases hqd : s.portDone <;>
        by_cases he : s.emitted = [] <;> simp_all <;> omega

set_option maxHeartbeats 2000000 in
theorem inv_doCAPoll (s : MachineState) (res : Option (List String × Nat))
    (h : Inv s) : Inv (doCAPoll s res) := by
  cases res with
  | none => exact h
  | some cr =>
    obtain ⟨roots, idx⟩ := cr
    simp only [doCAPoll]
    unfold Inv b2n at h ⊢
    by_cases hch : (s.caIdx != idx) = true <;>
      by_cases hf : s.caFirst = true <;>
        simp only [hch, hf, if_true, if_false] <;>
        cases hld : s.leafDone <;> cases hcd : s.caDone <;>
        cases hpd : s.proxyDone <;> cases hqd : s.portDone <;>
        by_cases he : s.emitted = [] <;> simp_all <;> omega

set_option maxHeartbeats 2000000 in
theorem inv_doProxyPoll (pd : String → Option Int) (s : MachineState)
    (res : Option (api.AgentService × String)) (h : Inv s) :
    Inv (doProxyPoll pd s res) := by
  cases res with
  | none => exact h
  | some cr =>
    obtain ⟨srv, hs⟩ := cr
    simp only [doProxyPoll]
    unfold Inv b2n at h ⊢
    by_cases hch : (s.proxyHash != hs) = true <;>
      by_cases hf : s.proxyFirst = true <;>
        simp only [hch, hf, if_true, if_false] <;>
        cases hld : s.leafDone <;> cases hcd : s.caDone <;>
        cases hpd : s.proxyDone <;> cases hqd : s.portDone <;>
        by_cases he : s.emitted = [] <;> simp_all <;> omega

set_option maxHeartbeats 2000000 in
theorem inv_doPortPoll (s : MachineState)
    (res : Option (api.AgentService × String)) (h : Inv s) :
    Inv (doPortPoll s res) := by
  cases res with
  | none => exact h
  | some cr =>
    obtain ⟨srv, hs⟩ := cr
    simp only [doPortPoll]
    unfold Inv b2n at h ⊢
    by_cases hch : (s.portHash != hs) = true <;>
      by_cases hf : s.portFirst = true <;>
        simp only [hch, hf, if_true, if_false] <;>
        cases hld : s.leafDone <;> cases hcd : s.caDone <;>
        cases hpd : s.proxyDone <;> cases hqd : s.portDone <;>
        by_cases he : s.emitted = [] <;> simp_all <;> omega

theorem inv_doUpPoll (s : MachineState) (name : String)
    (res : Option (List api.ServiceEntry × Nat)) (h : Inv s) :
    Inv (doUpPoll s name res) := by
  unfold doUpPoll
  cases hl : s.upstreams.lookup name with
  | none => exact h
  | some u =>
    cases res with
    | none => exact h
    | some cr =>
      obtain ⟨nodes, idx⟩ := cr
      simp only
      split <;> exact h

theorem inv_doPqPoll (s : MachineState) (name : String)
    (res : Option (List api.ServiceEntry)) (h : Inv s) :
    Inv (doPqPoll s name res) := by
  unfold doPqPoll
  cases hl : s.upstreams.lookup name with
  | none => exact h
  | some u =>
    simp only
    split <;> exact h

theorem inv_doSynth (s : MachineState) (h : Inv s) : Inv (doSynth s) := by
  unfold doSynth
  split_ifs with hc
  · cases hl : s.leaf with
    | some lf =>
      obtain ⟨h1, h2, h3, h4, h5, h6, h7, h8, h9, _⟩ := h
      exact ⟨h1, h2, h3, h4, h5, h6, h7, h8, h9, fun _ => hc.1⟩
    | none => exact h
  · exact h

theorem inv_stepM (pd : String → Option Int) (s : MachineState) (e : Ev)
    (h : Inv s) : Inv (stepM pd s e) := by
  unfold stepM
  split_ifs with hc
  · exact h
  · cases e with
    | leafPoll r => exact inv_doLeafPoll s r h
    | caPoll r => exact inv_doCAPoll s r h
    | proxyPoll r => exact inv_doProxyPoll pd s r h
    | portPoll r => exact inv_doPortPoll s r h
    | upPoll name r => exact inv_doUpPoll s name r h
    | pqPoll name r => exact inv_doPqPoll s name r h
    | synth => exact inv_doSynth s h

theorem inv_initState : Inv initState := by
  unfold Inv initState b2n
  decide

theorem inv_foldl (pd : String → Option Int) (evs : List Ev) (s : MachineState)
    (h : Inv s) : Inv (evs.foldl (stepM pd) s) := by
  induction evs generalizing s with
  | nil => simpa using h
  | cons e t ih => exact ih _ (inv_stepM pd s e h)

theorem inv_runMachine (pd : String → Option Int) (evs : List Ev) :
    Inv (runMachine pd evs) :=
  inv_foldl pd evs initState inv_initState

theorem b2n_le_one (b : Bool) : b2n b ≤ 1 := by cases b <;> simp [b2n]

/-- A schedule on which all four watchers complete a first successful,
changed poll: the barrier releases with the leaf populated. -/
def goodTrace : List Ev :=
  [ .caPoll (some (["r"], 1)),
    .leafPoll (some ({ CertPEM := "c", PrivateKeyPEM := "k" }, 3)),
    .proxyPoll (some (srvAB, "h1")),
    .portPoll (some (srvAB, "h2")) ]

/-- Claim C3: no configuration is emitted before the CA, leaf,
self-registration and self-port watchers have each completed at least one
successful cycle; and once the four-way join has released, a pending
coalesced signal — whichever watcher produced it — makes the synthesizer
step emit exactly one snapshot and clear the signal. -/
theorem c3_readiness_barrier (pd : String → Option Int) (evs : List Ev) :
    ((runMachine pd evs).emitted ≠ [] →
      1 ≤ (runMachine pd evs).caSucc ∧ 1 ≤ (runMachine pd evs).leafSucc ∧
      1 ≤ (runMachine pd evs).proxySucc ∧ 1 ≤ (runMachine pd evs).portSucc)
    ∧ ((runMachine pd evs).readyCount = 0 → (runMachine pd evs).update = true →
       (runMachine pd evs).crashed = false →
       (runMachine pd evs).leaf.isSome = true →
       (runMachine pd (evs ++ [Ev.synth])).emitted.length
           = (runMachine pd evs).emitted.length + 1
         ∧ (runMachine pd (evs ++ [Ev.synth])).update = false) := by
  obtain ⟨h1, h2, h3, h4, h5, h6, h7, h8, h9, h10⟩ := inv_runMachine pd evs
  constructor
  · intro he
    have hr := h10 he
    cases hld : (runMachine pd evs).leafDone <;>
    cases hcd : (runMachine pd evs).caDone <;>
    cases hpd : (runMachine pd evs).proxyDone <;>
    cases hqd : (runMachine pd evs).portDone <;>
      simp_all [b2n]
  · intro hr hu hc hleaf
    have hstep : runMachine pd (evs ++ [Ev.synth])
        = stepM pd (runMachine pd evs) Ev.synth := by
      simp [runMachine, List.foldl_append]
    obtain ⟨lf, hlf⟩ := Option.isSome_iff_exists.1 hleaf
    rw [hstep]
    simp [stepM, hc, doSynth, hr, hu, hlf]

/-- Witness for C3 at the concrete four-success schedule. -/
theorem c3_readiness_barrier_witness :
    ((runMachine pdNone goodTrace).readyCount = 0 ∧
     (runMachine pdNone goodTrace).update = true ∧
     (runMachine pdNone goodTrace).crashed = false ∧
     (runMachine pdNone goodTrace).leaf.isSome = true)
    ∧ (runMachine pdNone (goodTrace ++ [Ev.synth])).emitted.length
        = (runMachine pdNone goodTrace).emitted.length + 1 :=
  ⟨⟨by decide, by decide, by decide, by decide⟩,
   ((c3_readiness_barrier pdNone goodTrace).2
     (by decide) (by decide) (by decide) (by decide)).1⟩

/-- The environment assumption forced by the C10 counterexample: every
successful leaf poll reports a non-zero blocking-query index (Consul raft
indices start at 1). -/
def goodLeafEv : Ev → Prop
  | .leafPoll (some (_, idx)) => idx ≠ 0
  | _ => True

/-- The leaf-population invariant: not crashed; before the first successful
leaf poll the tracked index is still zero (so that first success is a
change); once leaf readiness is signalled the leaf is populated. -/
def InvL (s : MachineState) : Prop :=
  s.crashed = false
  ∧ (s.leafFirst = true → s.leafIdx = 0)
  ∧ (s.leafDone = true → s.leaf.isSome = true)

/-- `InvL` only reads the five leaf-related fields. -/
theorem invL_frame (s t : MachineState)
    (hcr : t.crashed = s.crashed) (hf : t.leafFirst = s.leafFirst)
    (hi : t.leafIdx = s.leafIdx) (hdn : t.leafDone = s.leafDone)
    (hlf : t.leaf = s.leaf) (hL : InvL s) : InvL t := by
  obtain ⟨h1, h2, h3⟩ := hL
  refine ⟨hcr.trans h1, ?_, ?_⟩
  · intro hh; rw [hi]; exact h2 (hf ▸ hh)
  · intro hh; rw [hlf]; exact h3 (hdn ▸ hh)

theorem doCAPoll_leaf_frame (s : MachineState) (r : Option (List String × Nat)) :
    (doCAPoll s r).crashed = s.crashed ∧ (doCAPoll s r).leafFirst = s.leafFirst
    ∧ (doCAPoll s r).leafIdx = s.leafIdx ∧ (doCAPoll s r).leafDone = s.leafDone
    ∧ (doCAPoll s r).leaf = s.leaf := by
  cases r with
  | none => exact ⟨rfl, rfl, rfl, rfl, rfl⟩
  | some cr =>
    obtain ⟨roots, idx⟩ := cr
    simp only [doCAPoll]
    split_ifs <;> exact ⟨rfl, rfl, rfl, rfl, rfl⟩

theorem doProxyPoll_leaf_frame (pd : String → Option Int) (s : MachineState)
    (r : Option (api.AgentService × String)) :
    (doProxyPoll pd s r).crashed = s.crashed
    ∧ (doProxyPoll pd s r).leafFirst = s.leafFirst
    ∧ (doProxyPoll pd s r).leafIdx = s.leafIdx
    ∧ (doProxyPoll pd s r).leafDone = s.leafDone
    ∧ (doProxyPoll pd s r).leaf = s.leaf := by
  cases r with
  | none => exact ⟨rfl, rfl, rfl, rfl, rfl⟩
  | some cr =>
    obtain ⟨srv, hs⟩ := cr
    simp only [doProxyPoll]
    split_ifs <;> exact ⟨rfl, rfl, rfl, rfl, rfl⟩

theorem doPortPoll_leaf_frame (s : MachineState)
    (r : Option (api.AgentService × String)) :
    (doPortPoll s r).crashed = s.crashed
    ∧ (doPortPoll s r).leafFirst = s.leafFirst
    ∧ (doPortPoll s r).leafIdx = s.leafIdx
    ∧ (doPortPoll s r).leafDone = s.leafDone
    ∧ (doPortPoll s r).leaf = s.leaf := by
  cases r with
  | none => exact ⟨rfl, rfl, rfl, rfl, rfl⟩
  | some cr =>
    obtain ⟨srv, hs⟩ := cr
    simp only [doPortPoll]
    split_ifs <;> exact ⟨rfl, rfl, rfl, rfl, rfl⟩

theorem doUpPoll_leaf_frame (s : MachineState) (name : String)
    (r : Option (List api.ServiceEntry × Nat)) :
    (doUpPoll s name r).crashed = s.crashed
    ∧ (doUpPoll s name r).leafFirst = s.leafFirst
    ∧ (doUpPoll s name r).leafIdx = s.leafIdx
    ∧ (doUpPoll s name r).leafDone = s.leafDone
    ∧ (doUpPoll s name r).leaf = s.leaf := by
  unfold doUpPoll
  cases hl : s.upstreams.lookup name with
  | none => exact ⟨rfl, rfl, rfl, rfl, rfl⟩
  | some u =>
    cases r with
    | none => exact ⟨rfl, rfl, rfl, rfl, rfl⟩
    | some cr =>
      obtain ⟨nodes, idx⟩ := cr
      simp only
      split_ifs <;> exact ⟨rfl, rfl, rfl, rfl, rfl⟩

theorem doPqPoll_leaf_frame (s : MachineState) (name : String)
    (r : Option (List api.ServiceEntry)) :
    (doPqPoll s name r).crashed = s.crashed
    ∧ (doPqPoll s name r).leafFirst = s.leafFirst
    ∧ (doPqPoll s name r).leafIdx = s.leafIdx
    ∧ (doPqPoll s name r).leafDone = s.leafDone
    ∧ (doPqPoll s name r).leaf = s.leaf := by
  unfold doPqPoll
  cases hl : s.upstreams.lookup name with
  | none => exact ⟨rfl, rfl, rfl, rfl, rfl⟩
  | some u =>
    simp only
    split_ifs <;> exact ⟨rfl, rfl, rfl, rfl, rfl⟩

theorem invL_doLeafPoll (s : MachineState) (r : Option (api.LeafCert × Nat))
    (hL : InvL s) (hg : goodLeafEv (Ev.leafPoll r)) :
    InvL (doLeafPoll s r) := by
  obtain ⟨h1, h2, h3⟩ := hL
  cases r with
  | none => exact ⟨h1, fun _ => rfl, h3⟩
  | some cr =>
    obtain ⟨cert, idx⟩ := cr
    have hidx : idx ≠ 0 := hg
    simp only [doLeafPoll]
    by_cases hf : s.leafFirst = true
    · have hch : (s.leafIdx != idx) = true := by
        rw [h2 hf]
        simpa [bne_iff_ne] using Ne.symm hidx
      simp only [hch, hf, if_true]
      exact ⟨h1, fun hff => by simp at hff, fun _ => rfl⟩
    · by_cases hch : (s.leafIdx != idx) = true <;>
        simp only [hch, hf, if_true, if_false, Bool.false_eq_true]
      · exact ⟨h1, fun hff => by simp at hff, fun _ => rfl⟩
      · exact ⟨h1, fun hff => by simp at hff, h3⟩

theorem invL_doSynth (s : MachineState) (hI : Inv s) (hL : InvL s) :
    InvL (doSynth s) := by
  obtain ⟨h1c, h2z, h3d⟩ := hL
  unfold doSynth
  split_ifs with hc
  · cases hlf : s.leaf with
    | some lf => exact ⟨h1c, h2z, fun _ => rfl⟩
    | none =>
      exfalso
      obtain ⟨h1, _⟩ := hI
      have hld : s.leafDone = true := by
        cases hval : s.leafDone
        · exfalso
          rw [hval, hc.1] at h1
          cases hcd : s.caDone <;> cases hpd : s.proxyDone <;>
            cases hqd : s.portDone <;> rw [hcd, hpd, hqd] at h1 <;>
            simp [b2n] at h1
        · rfl
      have := h3d hld
      rw [hlf] at this
      simp at this
  · exact ⟨h1c, h2z, h3d⟩

theorem invL_stepM (pd : String → Option Int) (s : MachineState) (e : Ev)
    (hI : Inv s) (hL : InvL s) (hg : goodLeafEv e) : InvL (stepM pd s e) := by
  unfold stepM
  rw [hL.1]
  simp only [Bool.false_eq_true, if_false]
  cases e with
  | leafPoll r => exact invL_doLeafPoll s r hL hg
  | caPoll r =>
    obtain ⟨a, b, c, d, e2⟩ := doCAPoll_leaf_frame s r
    exact invL_frame s _ a b c d e2 hL
  | proxyPoll r =>
    obtain ⟨a, b, c, d, e2⟩ := doProxyPoll_leaf_frame pd s r
    exact invL_frame s _ a b c d e2 hL
  | portPoll r =>
    obtain ⟨a, b, c, d, e2⟩ := doPortPoll_leaf_frame s r
    exact invL_frame s _ a b c d e2 hL
  | upPoll name r =>
    obtain ⟨a, b, c, d, e2⟩ := doUpPoll_leaf_frame s name r
    exact invL_frame s _ a b c d e2 hL
  | pqPoll name r =>
    obtain ⟨a, b, c, d, e2⟩ := doPqPoll_leaf_frame s name r
    exact invL_frame s _ a b c d e2 hL
  | synth => exact invL_doSynth s hI hL

theorem invL_initState : InvL initState := by
  unfold InvL initState
  exact ⟨rfl, fun _ => rfl, fun hh => by simp at hh⟩

theorem invL_foldl (pd : String → Option Int) (evs : List Ev) (s : MachineState)
    (hI : Inv s) (hL : InvL s) (hg : ∀ e ∈ evs, goodLeafEv e) :
    InvL (evs.foldl (stepM pd) s) := by
  induction evs generalizing s with
  | nil => simpa using hL
  | cons e t ih =>
    exact ih _ (inv_stepM pd s e hI)
      (invL_stepM pd s e hI hL (hg e (List.mem_cons_self e t)))
      (fun e2 he2 => hg e2 (List.mem_cons_of_mem e he2))

/-- Claim C10, amended: provided every successful leaf poll carries a
non-zero index (as Consul guarantees for raft-backed results), `genCfg`
never dereferences an absent leaf — the machine never crashes — and once the
four-way barrier has released the leaf identity is populated. -/
theorem c10_leaf_populated (pd : String → Option Int) (evs : List Ev)
    (hg : ∀ e ∈ evs, goodLeafEv e) :
    (runMachine pd evs).crashed = false
    ∧ ((runMachine pd evs).readyCount = 0 →
        (runMachine pd evs).leaf.isSome = true) := by
  have hL : InvL (runMachine pd evs) :=
    invL_foldl pd evs initState inv_initState invL_initState hg
  obtain ⟨h1, _⟩ := inv_runMachine pd evs
  refine ⟨hL.1, fun hr => ?_⟩
  have hld : (runMachine pd evs).leafDone = true := by
    cases hval : (runMachine pd evs).leafDone
    · exfalso
      rw [hval, hr] at h1
      cases hcd : (runMachine pd evs).caDone <;>
        cases hpd : (runMachine pd evs).proxyDone <;>
        cases hqd : (runMachine pd evs).portDone <;>
        rw [hcd, hpd, hqd] at h1 <;> simp [b2n] at h1
    · rfl
  exact hL.2.2 hld

/-- Witness for the amended C10 at the concrete four-success schedule. -/
theorem c10_leaf_populated_witness :
    (∀ e ∈ goodTrace, goodLeafEv e)
    ∧ (runMachine pdNone goodTrace).crashed = false
    ∧ (runMachine pdNone goodTrace).leaf.isSome = true := by
  have hg : ∀ e ∈ goodTrace, goodLeafEv e := by
    intro e he
    simp only [goodTrace, List.mem_cons, List.not_mem_nil, or_false] at he
    rcases he with rfl | rfl | rfl | rfl <;> simp [goodLeafEv]
  have h := c10_leaf_populated pdNone goodTrace hg
  exact ⟨hg, h.1, h.2 (by decide)⟩

/-- A schedule whose first leaf success reports index zero: `changed` is
false, the leaf stays nil, yet leaf readiness is signalled; after the other
three watchers complete, the barrier releases and the synthesizer
dereferences the nil leaf. -/
def c10BadTrace : List Ev :=
  [ .leafPoll (some ({ CertPEM := "c", PrivateKeyPEM := "k" }, 0)),
    .caPoll (some (["r"], 1)),
    .proxyPoll (some (srvAB, "h1")),
    .portPoll (some (srvAB, "h2")),
    .synth ]

/-- Counterexample to C10 as stated: on `c10BadTrace` the barrier has
released (readyCount = 0) and a synthesis was triggered, but the leaf
pointer is still nil and `genCfg`'s `w.leaf.Cert` dereference crashes. -/
theorem c10_counterexample :
    (runMachine pdNone c10BadTrace).readyCount = 0
    ∧ (runMachine pdNone c10BadTrace).leaf = none
    ∧ (runMachine pdNone c10BadTrace).crashed = true := by decide

end Watcher
